import Mathlib

/-!
Verification development for the sqlite-bench benchmark program
(single source file `src/main.rs`).

The definitions below are a shallow embedding of the program:

* the per-worker randomized workload generator (`main.rs` lines 172-192),
  modelled over an explicit pseudo-random draw stream;
* the seeding SQL's recursive `generate_series` CTE (`main.rs` lines 137-145);
* the experiment grid construction (`main.rs` lines 82-94) and the result
  accumulation loop (`main.rs` lines 102-107);
* the contention-retry transaction executor (`main.rs` lines 194-226), both
  as a retry loop over attempt outcomes and as a phase-level state machine;
* the throughput computation (`main.rs` line 251), including an exact
  model of the `f32` rounding performed by `Duration::div_f32` /
  `Duration::from_secs_f32` (round to nearest, ties to even).

Machine integers are modelled as `Nat` (no arithmetic in the program
overflows: counters are far below `2^64`, row ids below `2^31`).
-/

/-! ### Pseudo-random generator model

The program uses `rand::StdRng`, an external dependency.  We model a
generator state as an infinite stream of draws together with a position;
every sampling primitive consumes one draw and advances the position.
This captures exactly what the benchmark relies on: sampling is a pure
function of the generator state. -/

/-- A pseudo-random generator state: an infinite stream of raw draws and a
current position.  `stream` models the (external) `StdRng` output sequence;
each primitive sampling operation consumes one draw. -/
structure Rng where
  stream : Nat → Nat
  pos : Nat

/-- Consume one raw draw, returning it and the advanced generator. -/
def Rng.next (r : Rng) : Nat × Rng :=
  (r.stream r.pos, { r with pos := r.pos + 1 })

/-- The draw sequence still ahead of a generator state. -/
def drawsOf (r : Rng) : Nat → Nat :=
  fun i => r.stream (r.pos + i)

/-- The alphabet of `struct Hexadecimal` (`main.rs` line 51):
the byte string `b"0123456789ABCDEF"`. -/
def hexAlphabet : List Char :=
  ['0', '1', '2', '3', '4', '5', '6', '7', '8', '9', 'A', 'B', 'C', 'D', 'E', 'F']

/-- Model of `b"0123456789ABCDEF".choose(rng)` (`main.rs` line 51): `choose`
picks one of the 16 alphabet entries uniformly; we model the pick as the raw
draw reduced mod 16. -/
def hexDigit (v : Nat) : Char :=
  hexAlphabet.getD (v % 16) '0'

/-- Sample one character of the `Hexadecimal` distribution (`main.rs`
lines 49-53). -/
def sampleHexChar (r : Rng) : Char × Rng :=
  let s := r.next
  (hexDigit s.1, s.2)

/-- Model of `(&mut rng).sample_iter(&Hexadecimal).take(n).map(char::from)
.collect::<String>()` (`main.rs` lines 180 and 188): `n` successive
`Hexadecimal` samples.  Strings are modelled as their character lists. -/
def sampleHexString : Nat → Rng → List Char × Rng
  | 0, r => ([], r)
  | n + 1, r =>
      let s := sampleHexChar r
      let rest := sampleHexString n s.2
      (s.1 :: rest.1, rest.2)

/-- Model of `rng.fill_bytes(&mut bytes)` on a buffer of `n` bytes
(`main.rs` lines 184-185): each byte is a raw draw reduced mod 256. -/
def fillBytes : Nat → Rng → List Nat × Rng
  | 0, r => ([], r)
  | n + 1, r =>
      let s := r.next
      let rest := fillBytes n s.2
      (s.1 % 256 :: rest.1, rest.2)

/-- The upper bound of the row-id sampler `Uniform::from(0..1_000_000)`
(`main.rs` line 172).  The bound is the literal `1_000_000`; it does not
depend on the configured seed row count (`args.seed`), which `begin`
receives (`main.rs` line 157) but never uses for sampling. -/
def betweenIdsHi : Nat := 1000000

/-- Model of `rand::distributions::Uniform::from(lo..hi)` sampling: the
sampled value lies in `[lo, hi)` and every residue is reachable; we model
the pick as `lo +` the raw draw reduced mod `hi - lo`. -/
def uniformSample (lo hi : Nat) (r : Rng) : Nat × Rng :=
  let s := r.next
  (lo + s.1 % (hi - lo), s.2)

/-- One update tuple `([u8; 200], String, i32)` of the workload
(`main.rs` line 182): random payload bytes, a 64-character hexadecimal
string and a target row id. -/
structure UpdateTuple where
  bytes : List Nat
  hexStr : List Char
  rowId : Nat
deriving DecidableEq

/-- A `RandomizedTransactionPlan`: the scan probe strings and update tuples
generated before each logical transaction (`main.rs` lines 179-192). -/
structure Plan where
  scans : List (List Char)
  updates : List UpdateTuple
deriving DecidableEq

/-- The empty transaction plan (no scans, no updates). -/
def emptyPlan : Plan := ⟨[], []⟩

/-- Generate the `n_scans` scan probe strings (`main.rs` lines 179-181). -/
def genScans : Nat → Rng → List (List Char) × Rng
  | 0, r => ([], r)
  | n + 1, r =>
      let s := sampleHexString 16 r
      let rest := genScans n s.2
      (s.1 :: rest.1, rest.2)

/-- Generate one update tuple (`main.rs` lines 183-191): 200 random bytes,
then a 64-character hexadecimal string, then a row id drawn by
`between_ids.sample(&mut rng)` whose range is the hardcoded
`0..1_000_000`. -/
def genUpdate (r : Rng) : UpdateTuple × Rng :=
  let b := fillBytes 200 r
  let h := sampleHexString 64 b.2
  let i := uniformSample 0 betweenIdsHi h.2
  (⟨b.1, h.1, i.1⟩, i.2)

/-- Generate the `n_updates` update tuples (`main.rs` lines 182-192). -/
def genUpdates : Nat → Rng → List UpdateTuple × Rng
  | 0, r => ([], r)
  | n + 1, r =>
      let u := genUpdate r
      let rest := genUpdates n u.2
      (u.1 :: rest.1, rest.2)

/-- Generate one `RandomizedTransactionPlan`: scan strings first, then
update tuples, exactly in source order (`main.rs` lines 179-192). -/
def genPlan (nScans nUpdates : Nat) (r : Rng) : Plan × Rng :=
  let s := genScans nScans r
  let u := genUpdates nUpdates s.2
  (⟨s.1, u.1⟩, u.2)

/-- The `u64` seed a worker derives from its index:
`SeedableRng::seed_from_u64(thread_id as u64)` (`main.rs` line 173). -/
def workerSeed (threadId : Nat) : Nat := threadId % 2 ^ 64

/-- The generator a worker starts with, given a model `stdStream` of the
external `StdRng` stream family (seed to draw stream): the worker seeds
its private generator from its own index (`main.rs` line 173). -/
def workerRng (stdStream : Nat → Nat → Nat) (threadId : Nat) : Rng :=
  ⟨stdStream (workerSeed threadId), 0⟩

/-- The sequence of plans a worker generates over `k` iterations of its
outer loop (`main.rs` lines 178-227).  The generator is consumed only by
plan generation: the inner retry loop (`main.rs` lines 194-226) never
samples, so retries do not advance the generator. -/
def workerPlans (nScans nUpdates : Nat) : Nat → Rng → List Plan
  | 0, _ => []
  | k + 1, r =>
      let p := genPlan nScans nUpdates r
      p.1 :: workerPlans nScans nUpdates k p.2

/-! ### Seeding (`seed`, `main.rs` lines 121-153)

The primary keys inserted by the seeding SQL are the values produced by
the recursive CTE
`WITH RECURSIVE generate_series(value) AS (SELECT 0 UNION ALL SELECT
value+1 FROM generate_series WHERE value < {rows})`. -/

/-- Values produced by the recursive CTE starting from `v`: the row `v` is
emitted, and whenever `v < rows` the recursive member emits `v + 1` next. -/
def seriesFrom (v rows : Nat) : List Nat :=
  v :: (if _h : v < rows then seriesFrom (v + 1) rows else [])
termination_by rows - v
decreasing_by omega

/-- The integer primary keys (`a` column) inserted into `tbl` by `seed`
(`main.rs` lines 137-145): the CTE starts at 0. -/
def seedTableKeys (rows : Nat) : List Nat :=
  seriesFrom 0 rows

/-! ### Experiment grid (`main`, `main.rs` lines 82-107) -/

/-- `rusqlite::TransactionBehavior` (the variants the program names,
`main.rs` lines 87-91 and 237-242). -/
inductive Behavior where
  | deferred
  | immediate
  | exclusive
  | concurrent
deriving DecidableEq

/-- The three behaviors the grid multiplies in (`main.rs` lines 87-91). -/
def gridBehaviors : List Behavior :=
  [Behavior.deferred, Behavior.immediate, Behavior.concurrent]

/-- One experiment configuration (a grid cell). -/
structure Config where
  nThreads : Nat
  nScans : Nat
  nUpdates : Nat
  behavior : Behavior
deriving DecidableEq

/-- `itertools::cartesian_product` on lists: for each element of `xs`, all
elements of `ys`, in order. -/
def cartesianProduct {α β : Type} (xs : List α) (ys : List β) : List (α × β) :=
  xs.flatMap (fun x => ys.map (fun y => (x, y)))

/-- The `iterations` list of `main` (`main.rs` lines 82-94):
`threads × scans × updates × behaviors` in that nesting order, flattened to
tuples, then filtered to drop combinations where both the scan count and
the update count are zero. -/
def iterations (threads scans updates : List Nat) : List Config :=
  ((cartesianProduct (cartesianProduct (cartesianProduct threads scans) updates)
        gridBehaviors).map
      (fun x => Config.mk x.1.1.1 x.1.1.2 x.1.2 x.2)).filter
    (fun c => !(c.nScans == 0 && c.nUpdates == 0))

/-- The result-accumulation loop of `main` (`main.rs` lines 102-107): start
from an empty vector and push each experiment's result in iteration
order. -/
def runGrid {R : Type} (driver : Config → R) (cfgs : List Config) : List R :=
  cfgs.foldl (fun acc c => acc ++ [driver c]) []

/-- Observable shape of one program run (`main`, `main.rs` lines 70-119):
whether the store was seeded, which experiments ran, whether the output
file was written, and the collected results (`none` when `main` returned
early with an error). -/
structure MainRun (R : Type) where
  seeded : Bool
  experimentsRun : List Config
  outputWritten : Bool
  results : Option (List R)

/-- Control flow of `main` (`main.rs` lines 70-119): if the output path
already exists, `main` returns an error (`main.rs` lines 73-75) before
seeding (line 97), before the experiment loop (lines 104-107) and before
the output write (line 111); otherwise it seeds, runs every grid iteration
in order and writes the collected results. -/
def mainModel {R : Type} (outputExists : Bool) (threads scans updates : List Nat)
    (driver : Config → R) : MainRun R :=
  if outputExists then
    ⟨false, [], false, none⟩
  else
    ⟨true, iterations threads scans updates, true,
      some (runGrid driver (iterations threads scans updates))⟩

/-! ### Contention-retry transaction executor (`main.rs` lines 194-226)

Each store call (begin, a scan, an update, commit) either succeeds, fails
with the busy/contended signal (`ErrorCode::DatabaseBusy`), or fails with
any other error.  Errors abort the attempt at the failing call (the `?`
operator); the surrounding `match` retries the whole closure on busy,
counts a committed transaction on success, and panics (`unimplemented!`)
on anything else. -/

/-- The store's response to one call, as the executor distinguishes them
(`main.rs` lines 215-224): success, the busy/contended failure, or any
other (fatal) failure. -/
inductive Resp where
  | ok
  | busy
  | fatal
deriving DecidableEq

/-- Result of one run of the `transaction` closure (`main.rs` lines
195-213) given the store's responses to its successive calls: the `?`
operator surfaces the first non-`ok` response; if every call succeeds the
closure returns `Ok`. -/
def attemptResult (os : List Resp) : Resp :=
  (os.find? (fun r => r != Resp.ok)).getD Resp.ok

/-- One recorded attempt of the retry loop: the plan it executed and the
result of its `transaction` closure. -/
structure AttemptRec where
  plan : Plan
  result : Resp
deriving DecidableEq

/-- The retry loop (`main.rs` lines 194-226) over a list of per-attempt
oracles (each oracle lists the store's responses to that attempt's calls).
Returns the recorded attempts, the value that escapes the loop
(`some Resp.ok` = committed and `break`; `some Resp.fatal` = the
`unimplemented!` panic; `none` = the oracle list ran out while the loop was
still retrying), and the final value of the `retries` counter.  The plan is
bound outside the loop and so is identical for every attempt. -/
def innerLoop (p : Plan) : List (List Resp) → Nat → List AttemptRec × Option Resp × Nat
  | [], retries => ([], none, retries)
  | o :: os, retries =>
      match attemptResult o with
      | Resp.busy =>
          let rest := innerLoop p os (retries + 1)
          (⟨p, Resp.busy⟩ :: rest.1, rest.2.1, rest.2.2)
      | Resp.ok => ([⟨p, Resp.ok⟩], some Resp.ok, retries)
      | Resp.fatal => ([⟨p, Resp.fatal⟩], some Resp.fatal, retries)

/-- States of the executor's phase-level state machine
(`main.rs` lines 194-226): begin a transaction, the scan phase, the update
phase, the commit, and the two terminal outcomes. -/
inductive MState where
  | mBegin
  | mScanPhase
  | mUpdatePhase
  | mCommit
  | mSuccess
  | mFatalError
deriving DecidableEq

/-- The phase entered after a successful begin (`main.rs` lines 196-205):
the scan phase runs only if the plan has scan keys, the update phase only
if it has update tuples, otherwise control falls through to commit. -/
def postBegin (p : Plan) : MState :=
  if p.scans.isEmpty then
    (if p.updates.isEmpty then MState.mCommit else MState.mUpdatePhase)
  else MState.mScanPhase

/-- The phase entered after a completed scan phase (`main.rs` lines
205-210). -/
def postScan (p : Plan) : MState :=
  if p.updates.isEmpty then MState.mCommit else MState.mUpdatePhase

/-- One transition of the executor state machine: from each active state,
a successful response advances to the next phase, a busy response restarts
the attempt at begin (`continue`, `main.rs` lines 216-219), and any other
failure reaches the fatal `unimplemented!` state (`main.rs` line 224).
`mSuccess` and `mFatalError` are terminal. -/
def mstep (p : Plan) : MState → Resp → MState
  | MState.mBegin, Resp.ok => postBegin p
  | MState.mScanPhase, Resp.ok => postScan p
  | MState.mUpdatePhase, Resp.ok => MState.mCommit
  | MState.mCommit, Resp.ok => MState.mSuccess
  | MState.mBegin, Resp.busy => MState.mBegin
  | MState.mScanPhase, Resp.busy => MState.mBegin
  | MState.mUpdatePhase, Resp.busy => MState.mBegin
  | MState.mCommit, Resp.busy => MState.mBegin
  | MState.mBegin, Resp.fatal => MState.mFatalError
  | MState.mScanPhase, Resp.fatal => MState.mFatalError
  | MState.mUpdatePhase, Resp.fatal => MState.mFatalError
  | MState.mCommit, Resp.fatal => MState.mFatalError
  | MState.mSuccess, _ => MState.mSuccess
  | MState.mFatalError, _ => MState.mFatalError

/-- The states one attempt visits, starting from `s`, consuming one
response per transition; the attempt ends on reaching a terminal state or
on returning to `mBegin` (a busy retry). -/
def runStates (p : Plan) : MState → List Resp → List MState
  | s, [] => [s]
  | s, r :: rs =>
      let t := mstep p s r
      if t = MState.mSuccess ∨ t = MState.mFatalError ∨ t = MState.mBegin then [s, t]
      else s :: runStates p t rs

/-- The phases one attempt passes through when every pre-commit call
succeeds: begin, the scan phase only if the plan has scan keys, the update
phase only if it has update tuples, then commit. -/
def attemptPhaseList (p : Plan) : List MState :=
  MState.mBegin ::
    ((if p.scans.isEmpty then [] else [MState.mScanPhase]) ++
      (if p.updates.isEmpty then [] else [MState.mUpdatePhase]) ++ [MState.mCommit])

/-- The state reached from `mCommit` for each possible commit response. -/
def commitNext : Resp → MState
  | Resp.ok => MState.mSuccess
  | Resp.busy => MState.mBegin
  | Resp.fatal => MState.mFatalError

/-! ### Throughput computation (`main.rs` line 251)

`tps: Duration::from_secs(1).as_nanos() /
Duration::from_secs(30).div_f32(transactions as f32).as_nanos()`.

`Duration::div_f32(rhs)` is `Duration::from_secs_f32(self.as_secs_f32() /
rhs)`.  `as_secs_f32` of the 30-second duration is exactly `30.0f32`;
dividing by `0.0f32` yields `+inf`, on which `from_secs_f32` panics;
otherwise the `f32` quotient is the real quotient rounded to the nearest
binary32 value (ties to even), and `from_secs_f32` converts it to a
nanosecond count by rounding `value * 10^9` to the nearest integer (ties
to even).  We model a positive binary32 value exactly as a dyadic pair
`(m, e)` with value `m * 2^e`. -/

/-- Round-to-nearest (ties to even) integer quotient of `a / b`. -/
def rneDiv (a b : Nat) : Nat :=
  let q := a / b
  let r := a % b
  if 2 * r > b ∨ (2 * r = b ∧ q % 2 = 1) then q + 1 else q

/-- Fuel-driven floor of the base-2 logarithm (structurally recursive so
that concrete values reduce in the kernel). -/
def log2Fuel : Nat → Nat → Nat
  | 0, _ => 0
  | fuel + 1, n => if 2 ≤ n then log2Fuel fuel (n / 2) + 1 else 0

/-- Fuel-driven ceiling of the base-2 logarithm. -/
def clog2Fuel : Nat → Nat → Nat
  | 0, _ => 0
  | fuel + 1, n => if 2 ≤ n then clog2Fuel fuel ((n + 1) / 2) + 1 else 0

/-- The exponent `e` with `2^e ≤ num/den < 2^(e+1)` (for positive
arguments in the binary32 normal range). -/
def floorLog2Frac (num den : Nat) : Int :=
  if den ≤ num then (log2Fuel num (num / den) : Int)
  else -(clog2Fuel den ((den + num - 1) / num) : Int)

/-- The binary32 value nearest to `num / den` (ties to even), as a dyadic
pair `(mantissa, exponent)` with value `mantissa * 2^exponent` and
`2^23 ≤ mantissa ≤ 2^24`.  Faithful for quotients in the binary32 normal
range, which covers every `30 / n` with `1 ≤ n ≤ 2^24`. -/
def f32DivDyadic (num den : Nat) : Nat × Int :=
  let e := floorLog2Frac num den
  let sh := 23 - e
  let m :=
    if 0 ≤ sh then rneDiv (num * 2 ^ sh.toNat) den
    else rneDiv num (den * 2 ^ (-sh).toNat)
  (m, e - 23)

/-- Whether the binary32 division `num / den` is exact: the rounded dyadic
value equals `num / den`. -/
def f32DivExact (num den : Nat) : Bool :=
  let md := f32DivDyadic num den
  if 0 ≤ md.2 then md.1 * 2 ^ md.2.toNat * den == num
  else md.1 * den == num * 2 ^ (-md.2).toNat

/-- `Duration::from_secs_f32` followed by `.as_nanos()` on the positive
dyadic value `m * 2^e` seconds: the total nanosecond count, rounded to
nearest (ties to even). -/
def fromSecsF32Nanos (m : Nat) (e : Int) : Nat :=
  if 0 ≤ e then m * 2 ^ e.toNat * 10 ^ 9
  else rneDiv (m * 10 ^ 9) (2 ^ (-e).toNat)

/-- The `tps` field computation (`main.rs` line 251) for a committed
transaction count `n`: `none` models a panic (dividing the 30-second
duration by `0.0f32` gives `+inf` and `Duration::from_secs_f32` panics;
a zero-nanosecond duration would make the `u128` division panic),
otherwise `10^9` nanoseconds divided (truncating) by the nanosecond count
of `30.0f32 / n`.  Faithful for `n ≤ 2^24` (where the `usize`-to-`f32`
cast is exact). -/
def tps (n : Nat) : Option Nat :=
  if n = 0 then none
  else
    let md := f32DivDyadic 30 n
    let nanos := fromSecsF32Nanos md.1 md.2
    if nanos = 0 then none else some (10 ^ 9 / nanos)

/-! ### Helper lemmas -/

/-- The CTE emits exactly the consecutive values from `v` to `rows`
(inclusive) when `v ≤ rows`. -/
theorem seriesFrom_eq_range' :
    ∀ n v rows, v ≤ rows → rows - v = n →
      seriesFrom v rows = List.range' v (rows + 1 - v) := by
  intro n
  induction n with
  | zero =>
      intro v rows hle hn
      have hv : v = rows := by omega
      subst hv
      rw [seriesFrom]
      have h1 : v + 1 - v = 1 := by omega
      simp [h1]
  | succ n ih =>
      intro v rows hle hn
      have hlt : v < rows := by omega
      rw [seriesFrom]
      rw [dif_pos hlt, ih (v + 1) rows (by omega) (by omega)]
      have h1 : rows + 1 - v = (rows - v) + 1 := by omega
      have h2 : rows + 1 - (v + 1) = rows - v := by omega
      rw [h1, h2, List.range'_succ]

/-- The inserted primary keys are `0, 1, ..., rows`. -/
theorem seedTableKeys_eq (rows : Nat) :
    seedTableKeys rows = List.range' 0 (rows + 1) := by
  unfold seedTableKeys
  rw [seriesFrom_eq_range' rows 0 rows (by omega) (by omega)]
  norm_num

/-- Membership in an itertools-style cartesian product. -/
theorem mem_cartesianProduct {α β : Type} (xs : List α) (ys : List β) (p : α × β) :
    p ∈ cartesianProduct xs ys ↔ p.1 ∈ xs ∧ p.2 ∈ ys := by
  cases p with
  | mk a b =>
      simp only [cartesianProduct, List.mem_flatMap, List.mem_map, Prod.mk.injEq]
      constructor
      · rintro ⟨x, hx, y, hy, hxa, hyb⟩
        exact ⟨hxa ▸ hx, hyb ▸ hy⟩
      · rintro ⟨ha, hb⟩
        exact ⟨a, ha, b, hb, rfl, rfl⟩

/-- Pushing results one at a time onto an accumulator is the same as
mapping in order. -/
theorem foldl_push_eq_map {α R : Type} (f : α → R) :
    ∀ (l : List α) (acc : List R),
      l.foldl (fun a c => a ++ [f c]) acc = acc ++ l.map f := by
  intro l
  induction l with
  | nil => intro acc; simp
  | cons c cs ih => intro acc; simp [List.foldl, ih]

/-- Advancing a generator shifts its draw sequence by one. -/
theorem drawsOf_next_snd (r : Rng) (i : Nat) :
    drawsOf (r.next).2 i = drawsOf r (i + 1) := by
  show r.stream (r.pos + 1 + i) = r.stream (r.pos + (i + 1))
  congr 1
  omega

/-- The value drawn by `Rng.next` is the head of the draw sequence. -/
theorem next_fst_eq (r : Rng) : (r.next).1 = drawsOf r 0 := by
  simp [drawsOf, Rng.next]

/-- Sampling one hexadecimal character depends only on the draw
sequence. -/
theorem sampleHexChar_congr {r r' : Rng} (h : ∀ i, drawsOf r i = drawsOf r' i) :
    (sampleHexChar r).1 = (sampleHexChar r').1 ∧
      ∀ i, drawsOf (sampleHexChar r).2 i = drawsOf (sampleHexChar r').2 i := by
  constructor
  · simp [sampleHexChar, next_fst_eq, h 0]
  · intro i
    simp only [sampleHexChar]
    rw [drawsOf_next_snd, drawsOf_next_snd]
    exact h (i + 1)

/-- Sampling a hexadecimal string depends only on the draw sequence. -/
theorem sampleHexString_congr :
    ∀ (n : Nat) {r r' : Rng}, (∀ i, drawsOf r i = drawsOf r' i) →
      (sampleHexString n r).1 = (sampleHexString n r').1 ∧
        ∀ i, drawsOf (sampleHexString n r).2 i = drawsOf (sampleHexString n r').2 i := by
  intro n
  induction n with
  | zero => intro r r' h; exact ⟨rfl, h⟩
  | succ n ih =>
      intro r r' h
      obtain ⟨hc, hr⟩ := sampleHexChar_congr h
      obtain ⟨hs, hr2⟩ := ih hr
      exact ⟨by simp only [sampleHexString, hc, hs], fun i => by
        simp only [sampleHexString]; exact hr2 i⟩

/-- Filling a byte buffer depends only on the draw sequence. -/
theorem fillBytes_congr :
    ∀ (n : Nat) {r r' : Rng}, (∀ i, drawsOf r i = drawsOf r' i) →
      (fillBytes n r).1 = (fillBytes n r').1 ∧
        ∀ i, drawsOf (fillBytes n r).2 i = drawsOf (fillBytes n r').2 i := by
  intro n
  induction n with
  | zero => intro r r' h; exact ⟨rfl, h⟩
  | succ n ih =>
      intro r r' h
      have hr : ∀ i, drawsOf (r.next).2 i = drawsOf (r'.next).2 i := by
        intro i; rw [drawsOf_next_snd, drawsOf_next_snd]; exact h (i + 1)
      obtain ⟨hs, hr2⟩ := ih hr
      constructor
      · simp only [fillBytes, next_fst_eq, h 0, hs]
      · intro i; simp only [fillBytes]; exact hr2 i

/-- Sampling a row id depends only on the draw sequence. -/
theorem uniformSample_congr (lo hi : Nat) {r r' : Rng}
    (h : ∀ i, drawsOf r i = drawsOf r' i) :
    (uniformSample lo hi r).1 = (uniformSample lo hi r').1 ∧
      ∀ i, drawsOf (uniformSample lo hi r).2 i = drawsOf (uniformSample lo hi r').2 i := by
  constructor
  · simp [uniformSample, next_fst_eq, h 0]
  · intro i
    simp only [uniformSample]
    rw [drawsOf_next_snd, drawsOf_next_snd]
    exact h (i + 1)

/-- Generating one update tuple depends only on the draw sequence. -/
theorem genUpdate_congr {r r' : Rng} (h : ∀ i, drawsOf r i = drawsOf r' i) :
    (genUpdate r).1 = (genUpdate r').1 ∧
      ∀ i, drawsOf (genUpdate r).2 i = drawsOf (genUpdate r').2 i := by
  obtain ⟨hb, hr1⟩ := fillBytes_congr 200 h
  obtain ⟨hh, hr2⟩ := sampleHexString_congr 64 hr1
  obtain ⟨hi, hr3⟩ := uniformSample_congr 0 betweenIdsHi hr2
  constructor
  · simp only [genUpdate, hb, hh, hi]
  · intro i; simp only [genUpdate]; exact hr3 i

/-- Generating the update list depends only on the draw sequence. -/
theorem genUpdates_congr :
    ∀ (n : Nat) {r r' : Rng}, (∀ i, drawsOf r i = drawsOf r' i) →
      (genUpdates n r).1 = (genUpdates n r').1 ∧
        ∀ i, drawsOf (genUpdates n r).2 i = drawsOf (genUpdates n r').2 i := by
  intro n
  induction n with
  | zero => intro r r' h; exact ⟨rfl, h⟩
  | succ n ih =>
      intro r r' h
      obtain ⟨hu, hr1⟩ := genUpdate_congr h
      obtain ⟨hs, hr2⟩ := ih hr1
      exact ⟨by simp only [genUpdates, hu, hs], fun i => by
        simp only [genUpdates]; exact hr2 i⟩

/-- Generating the scan list depends only on the draw sequence. -/
theorem genScans_congr :
    ∀ (n : Nat) {r r' : Rng}, (∀ i, drawsOf r i = drawsOf r' i) →
      (genScans n r).1 = (genScans n r').1 ∧
        ∀ i, drawsOf (genScans n r).2 i = drawsOf (genScans n r').2 i := by
  intro n
  induction n with
  | zero => intro r r' h; exact ⟨rfl, h⟩
  | succ n ih =>
      intro r r' h
      obtain ⟨hs, hr1⟩ := sampleHexString_congr 16 h
      obtain ⟨hrest, hr2⟩ := ih hr1
      exact ⟨by simp only [genScans, hs, hrest], fun i => by
        simp only [genScans]; exact hr2 i⟩

/-- Generating a whole plan depends only on the draw sequence. -/
theorem genPlan_congr (nScans nUpdates : Nat) {r r' : Rng}
    (h : ∀ i, drawsOf r i = drawsOf r' i) :
    (genPlan nScans nUpdates r).1 = (genPlan nScans nUpdates r').1 ∧
      ∀ i, drawsOf (genPlan nScans nUpdates r).2 i =
        drawsOf (genPlan nScans nUpdates r').2 i := by
  obtain ⟨hs, hr1⟩ := genScans_congr nScans h
  obtain ⟨hu, hr2⟩ := genUpdates_congr nUpdates hr1
  constructor
  · simp only [genPlan, hs, hu]
  · intro i; simp only [genPlan]; exact hr2 i

/-- A worker's whole plan sequence depends only on the draw sequence of
its starting generator. -/
theorem workerPlans_congr (nScans nUpdates : Nat) :
    ∀ (k : Nat) {r r' : Rng}, (∀ i, drawsOf r i = drawsOf r' i) →
      workerPlans nScans nUpdates k r = workerPlans nScans nUpdates k r' := by
  intro k
  induction k with
  | zero => intro r r' _; rfl
  | succ k ih =>
      intro r r' h
      obtain ⟨hp, hr⟩ := genPlan_congr nScans nUpdates h
      simp only [workerPlans, hp, ih hr]

/-- Every value of `hexDigit` lies in the hexadecimal alphabet. -/
theorem hexDigit_mem (v : Nat) : hexDigit v ∈ hexAlphabet := by
  have h : v % 16 < hexAlphabet.length := by
    have : v % 16 < 16 := Nat.mod_lt _ (by norm_num)
    simpa [hexAlphabet] using this
  rw [hexDigit, List.getD_eq_getElem _ _ h]
  exact List.getElem_mem h

/-- A sampled hexadecimal string has exactly the requested length. -/
theorem sampleHexString_length : ∀ (n : Nat) (r : Rng),
    (sampleHexString n r).1.length = n := by
  intro n
  induction n with
  | zero => intro r; rfl
  | succ n ih => intro r; simp [sampleHexString, ih]

/-- Every character of a sampled hexadecimal string is in the alphabet. -/
theorem sampleHexString_mem : ∀ (n : Nat) (r : Rng) (c : Char),
    c ∈ (sampleHexString n r).1 → c ∈ hexAlphabet := by
  intro n
  induction n with
  | zero => intro r c hc; cases hc
  | succ n ih =>
      intro r c hc
      simp only [sampleHexString, List.mem_cons] at hc
      cases hc with
      | inl h => rw [h]; exact hexDigit_mem _
      | inr h => exact ih _ _ h

/-- A filled byte buffer has exactly the requested length. -/
theorem fillBytes_length : ∀ (n : Nat) (r : Rng), (fillBytes n r).1.length = n := by
  intro n
  induction n with
  | zero => intro r; rfl
  | succ n ih => intro r; simp [fillBytes, ih]

/-- The sampled row id is below the hardcoded `1_000_000` bound. -/
theorem genUpdate_rowId_lt (r : Rng) : (genUpdate r).1.rowId < 1000000 := by
  show 0 + _ % (betweenIdsHi - 0) < 1000000
  simp only [betweenIdsHi, Nat.sub_zero, Nat.zero_add]
  exact Nat.mod_lt _ (by norm_num)

/-- Shape of every generated update tuple: 200 payload bytes, a 64-character
hexadecimal string over the alphabet, and a row id below `1_000_000`. -/
theorem genUpdates_mem : ∀ (n : Nat) (r : Rng) (u : UpdateTuple),
    u ∈ (genUpdates n r).1 →
      u.bytes.length = 200 ∧ u.hexStr.length = 64 ∧
        (∀ c, c ∈ u.hexStr → c ∈ hexAlphabet) ∧ u.rowId < 1000000 := by
  intro n
  induction n with
  | zero => intro r u hu; cases hu
  | succ n ih =>
      intro r u hu
      simp only [genUpdates, List.mem_cons] at hu
      cases hu with
      | inl h =>
          subst h
          refine ⟨?_, ?_, ?_, genUpdate_rowId_lt r⟩
          · show (fillBytes 200 r).1.length = 200
            exact fillBytes_length 200 r
          · show (sampleHexString 64 _).1.length = 64
            exact sampleHexString_length 64 _
          · intro c hc
            exact sampleHexString_mem 64 _ c hc
      | inr h => exact ih _ u h

/-- Shape of every generated scan probe string: 16 characters over the
hexadecimal alphabet. -/
theorem genScans_mem : ∀ (n : Nat) (r : Rng) (s : List Char),
    s ∈ (genScans n r).1 →
      s.length = 16 ∧ ∀ c, c ∈ s → c ∈ hexAlphabet := by
  intro n
  induction n with
  | zero => intro r s hs; cases hs
  | succ n ih =>
      intro r s hs
      simp only [genScans, List.mem_cons] at hs
      cases hs with
      | inl h =>
          subst h
          exact ⟨sampleHexString_length 16 r, fun c hc => sampleHexString_mem 16 r c hc⟩
      | inr h => exact ih _ s h

/-- Round-to-nearest division is exact on multiples. -/
theorem rneDiv_mul_exact (a b : Nat) (hb : b ≠ 0) : rneDiv (a * b) b = a := by
  unfold rneDiv
  have hq : a * b / b = a := Nat.mul_div_cancel a (Nat.pos_of_ne_zero hb)
  have hr : a * b % b = 0 := Nat.mul_mod_left a b
  rw [hq, hr]
  rw [if_neg]
  push_neg
  constructor
  · omega
  · intro h; omega

/-- Transfer of truncating division along `n * K = 30 * 10^9`:
`10^9` nanoseconds divided by the per-transaction nanosecond count equals
the transaction count divided by 30 seconds. -/
theorem div_transfer {n K : Nat} (h : n * K = 30 * 10 ^ 9) (_hn : 0 < n) (hK : 0 < K) :
    10 ^ 9 / K = n / 30 := by
  apply Nat.le_antisymm
  · rw [Nat.le_div_iff_mul_le (by norm_num : 0 < 30)]
    have h1 : 10 ^ 9 / K * K ≤ 10 ^ 9 := Nat.div_mul_le_self _ _
    have h4 : 10 ^ 9 / K * 30 * 10 ^ 9 ≤ n * 10 ^ 9 := by
      calc 10 ^ 9 / K * 30 * 10 ^ 9 = 10 ^ 9 / K * (30 * 10 ^ 9) := by ring
        _ = 10 ^ 9 / K * (n * K) := by rw [h]
        _ = 10 ^ 9 / K * K * n := by ring
        _ ≤ 10 ^ 9 * n := Nat.mul_le_mul_right n h1
        _ = n * 10 ^ 9 := by ring
    exact Nat.le_of_mul_le_mul_right h4 (by norm_num)
  · rw [Nat.le_div_iff_mul_le hK]
    have h1 : n / 30 * 30 ≤ n := Nat.div_mul_le_self _ _
    have h4 : n / 30 * K * 30 ≤ 10 ^ 9 * 30 := by
      calc n / 30 * K * 30 = n / 30 * 30 * K := by ring
        _ ≤ n * K := Nat.mul_le_mul_right K h1
        _ = 30 * 10 ^ 9 := h
        _ = 10 ^ 9 * 30 := by ring
    exact Nat.le_of_mul_le_mul_right h4 (by norm_num)

/-- When the binary32 quotient `30 / n` is exact and `n` divides
`30 * 10^9`, the nanosecond pipeline loses nothing and the reported
throughput is exactly `n / 30`. -/
theorem tps_exact_eq (n : Nat) (h1 : 1 ≤ n) (_h2 : n ≤ 2 ^ 24) (h3 : n ∣ 30 * 10 ^ 9)
    (h4 : f32DivExact 30 n = true) : tps n = some (n / 30) := by
  obtain ⟨K, hK⟩ := h3
  have hn0 : n ≠ 0 := by omega
  have hK0 : K ≠ 0 := by
    intro h0
    rw [h0, Nat.mul_zero] at hK
    norm_num at hK
  have hnanos : fromSecsF32Nanos (f32DivDyadic 30 n).1 (f32DivDyadic 30 n).2 = K := by
    unfold f32DivExact at h4
    by_cases he : 0 ≤ (f32DivDyadic 30 n).2
    · rw [if_pos he] at h4
      have hex : (f32DivDyadic 30 n).1 * 2 ^ (f32DivDyadic 30 n).2.toNat * n = 30 := by
        simpa using h4
      unfold fromSecsF32Nanos
      rw [if_pos he]
      have hmul : ((f32DivDyadic 30 n).1 * 2 ^ (f32DivDyadic 30 n).2.toNat * 10 ^ 9) * n
          = K * n := by
        calc ((f32DivDyadic 30 n).1 * 2 ^ (f32DivDyadic 30 n).2.toNat * 10 ^ 9) * n
            = ((f32DivDyadic 30 n).1 * 2 ^ (f32DivDyadic 30 n).2.toNat * n) * 10 ^ 9 := by ring
          _ = 30 * 10 ^ 9 := by rw [hex]
          _ = n * K := hK
          _ = K * n := by ring
      exact Nat.eq_of_mul_eq_mul_right (Nat.pos_of_ne_zero hn0) hmul
    · rw [if_neg he] at h4
      have hex : (f32DivDyadic 30 n).1 * n = 30 * 2 ^ (-(f32DivDyadic 30 n).2).toNat := by
        simpa using h4
      unfold fromSecsF32Nanos
      rw [if_neg he]
      have hmul : (f32DivDyadic 30 n).1 * 10 ^ 9
          = K * 2 ^ (-(f32DivDyadic 30 n).2).toNat := by
        have hstep : ((f32DivDyadic 30 n).1 * 10 ^ 9) * n
            = (K * 2 ^ (-(f32DivDyadic 30 n).2).toNat) * n := by
          calc ((f32DivDyadic 30 n).1 * 10 ^ 9) * n
              = ((f32DivDyadic 30 n).1 * n) * 10 ^ 9 := by ring
            _ = 30 * 2 ^ (-(f32DivDyadic 30 n).2).toNat * 10 ^ 9 := by rw [hex]
            _ = (30 * 10 ^ 9) * 2 ^ (-(f32DivDyadic 30 n).2).toNat := by ring
            _ = (n * K) * 2 ^ (-(f32DivDyadic 30 n).2).toNat := by rw [hK]
            _ = (K * 2 ^ (-(f32DivDyadic 30 n).2).toNat) * n := by ring
        exact Nat.eq_of_mul_eq_mul_right (Nat.pos_of_ne_zero hn0) hstep
      rw [hmul]
      exact rneDiv_mul_exact K _ (by positivity)
  unfold tps
  rw [if_neg hn0]
  simp only [hnanos]
  rw [if_neg hK0]
  congr 1
  exact div_transfer hK.symm (Nat.pos_of_ne_zero hn0) (Nat.pos_of_ne_zero hK0)

/-! ### Claims -/

set_option maxRecDepth 10000 in
/-- Claim C1 (code bug): the workload generator draws every update target
row id from the hardcoded range `[0, 1_000_000)` of `main.rs` line 172 —
not from `[0, seed_row_count)`.  The bound never depends on the configured
seed row count, so whenever the seed row count differs from `1_000_000`
the sampled ids can lie outside `[0, seed_row_count)`: a draw of `999999`
is mapped to row id `999999`, which is outside `[0, 100)` for a run
configured with 100 seed rows. -/
theorem claim1_rowid_ignores_seed_row_count :
    (∀ (nScans nUpdates : Nat) (r : Rng) (u : UpdateTuple),
      u ∈ (genPlan nScans nUpdates r).1.updates → u.rowId < 1000000) ∧
    ((genPlan 0 1 ⟨fun _ => 999999, 0⟩).1.updates.map UpdateTuple.rowId = [999999] ∧
      ¬(999999 < 100)) := by
  refine ⟨?_, by decide, by decide⟩
  intro ns nu r u hu
  have h : u ∈ (genUpdates nu (genScans ns r).2).1 := by
    simpa [genPlan] using hu
  exact (genUpdates_mem nu _ u h).2.2.2

set_option maxRecDepth 10000 in
/-- Claim C1 witness: the generic bound applies to the update tuple
generated from the all-zero draw stream. -/
theorem claim1_rowid_witness :
    (⟨List.replicate 200 0, List.replicate 64 '0', 0⟩ : UpdateTuple).rowId < 1000000 :=
  claim1_rowid_ignores_seed_row_count.1 0 1 ⟨fun _ => 0, 0⟩
    ⟨List.replicate 200 0, List.replicate 64 '0', 0⟩ (by decide)

/-- Claim C2 (corrected): the reported throughput is not in general the
committed count divided by 30 under integer division.  The pipeline of
`main.rs` line 251 computes `10^9 / N` where `N` is the nanosecond count
of the binary32 quotient `30.0f32 / committed`.  It agrees with
`committed / 30` whenever that quotient is exact and `committed` divides
`30 * 10^9` (e.g. 60 committed transactions give 2), but for 300 committed
transactions the binary32 value of `0.1` rounds the duration up to
`100000001` nanoseconds and the program reports 9, not 10. -/
theorem claim2_throughput_f32_rounding :
    (∀ n, 1 ≤ n → n ≤ 2 ^ 24 → n ∣ 30 * 10 ^ 9 → f32DivExact 30 n = true →
      tps n = some (n / 30)) ∧ tps 300 = some 9 :=
  ⟨tps_exact_eq, by decide⟩

/-- Claim C2 counterexample: with 300 committed transactions the code's
throughput is 9, not `300 / 30 = 10` as the claim states. -/
theorem claim2_integer_division_counterexample : ¬ (tps 300 = some (300 / 30)) := by
  decide

/-- Claim C2 witness: the amended theorem's hypotheses hold at 60
committed transactions, where the reported throughput equals
`60 / 30 = 2`. -/
theorem claim2_throughput_witness : tps 60 = some (60 / 30) :=
  claim2_throughput_f32_rounding.1 60 (by decide) (by decide) (by decide) (by decide)

/-- Claim C3: the executed grid is exactly the cartesian product of the
thread, scan and update lists with the three behaviors Deferred, Immediate
and Concurrent, minus every combination whose scan and update counts are
both zero; and the result sequence is the driver's output mapped over that
filtered product in enumeration order. -/
theorem claim3_grid_enumeration (R : Type) (driver : Config → R)
    (threads scans updates : List Nat) :
    (∀ c : Config, c ∈ iterations threads scans updates ↔
      (c.nThreads ∈ threads ∧ c.nScans ∈ scans ∧ c.nUpdates ∈ updates ∧
        c.behavior ∈ gridBehaviors ∧ ¬(c.nScans = 0 ∧ c.nUpdates = 0))) ∧
    runGrid driver (iterations threads scans updates) =
      (iterations threads scans updates).map driver := by
  constructor
  · intro c
    unfold iterations
    rw [List.mem_filter]
    constructor
    · rintro ⟨hmem, hpred⟩
      rw [List.mem_map] at hmem
      obtain ⟨x, hx, hxc⟩ := hmem
      rw [mem_cartesianProduct] at hx
      obtain ⟨hx1, hx4⟩ := hx
      rw [mem_cartesianProduct] at hx1
      obtain ⟨hx2, hx3⟩ := hx1
      rw [mem_cartesianProduct] at hx2
      obtain ⟨ht, hsc⟩ := hx2
      subst hxc
      refine ⟨ht, hsc, hx3, hx4, ?_⟩
      simp only [Bool.not_eq_true', Bool.and_eq_false_iff, beq_eq_false_iff_ne,
        ne_eq] at hpred
      tauto
    · rintro ⟨ht, hs, hu, hb, hne⟩
      refine ⟨?_, by simp only [Bool.not_eq_true', Bool.and_eq_false_iff,
        beq_eq_false_iff_ne, ne_eq]; tauto⟩
      rw [List.mem_map]
      refine ⟨⟨⟨⟨c.nThreads, c.nScans⟩, c.nUpdates⟩, c.behavior⟩, ?_, rfl⟩
      rw [mem_cartesianProduct]
      refine ⟨?_, hb⟩
      rw [mem_cartesianProduct]
      refine ⟨?_, hu⟩
      rw [mem_cartesianProduct]
      exact ⟨ht, hs⟩
  · unfold runGrid
    rw [foldl_push_eq_map]
    rfl

/-- Claim C4 (code bug): seeding inserts `seed_row_count + 1` rows keyed
by the inclusive interval `[0, seed_row_count]`, not `seed_row_count` rows
keyed by `[0, seed_row_count)`: the recursive CTE guard `value < rows`
still emits the successor row `rows` itself.  In particular requesting one
row yields the two keys 0 and 1. -/
theorem claim4_seeding_off_by_one :
    (∀ rows, (seedTableKeys rows).length = rows + 1 ∧
      ∀ k, k ∈ seedTableKeys rows ↔ k ≤ rows) ∧
    seedTableKeys 1 = [0, 1] := by
  constructor
  · intro rows
    rw [seedTableKeys_eq]
    constructor
    · rw [List.length_range']
    · intro k
      rw [List.mem_range'_1]
      omega
  · rw [seedTableKeys_eq]
    decide

/-- Claim C5: in the retry loop every attempt uses the one plan generated
before the loop, the value escaping the loop is never the busy signal (a
busy attempt always continues the loop), and the `retries` counter grows
by exactly the number of busy attempts. -/
theorem claim5_busy_retry_same_plan (p : Plan) :
    ∀ (os : List (List Resp)) (r0 : Nat),
      (∀ a, a ∈ (innerLoop p os r0).1 → a.plan = p) ∧
      (innerLoop p os r0).2.1 ≠ some Resp.busy ∧
      (innerLoop p os r0).2.2 =
        r0 + ((innerLoop p os r0).1.filter (fun a => a.result == Resp.busy)).length := by
  intro os
  induction os with
  | nil =>
      intro r0
      refine ⟨fun a ha => absurd ha (by simp [innerLoop]), by simp [innerLoop],
        by simp [innerLoop]⟩
  | cons o os ih =>
      intro r0
      obtain ⟨ih1, ih2, ih3⟩ := ih (r0 + 1)
      cases hres : attemptResult o with
      | busy =>
          refine ⟨?_, ?_, ?_⟩
          · intro a ha
            simp only [innerLoop, hres, List.mem_cons] at ha
            cases ha with
            | inl h => rw [h]
            | inr h => exact ih1 a h
          · simp only [innerLoop, hres]
            exact ih2
          · simp only [innerLoop, hres]
            rw [ih3, List.filter_cons]
            norm_num
            omega
      | ok =>
          refine ⟨?_, ?_, ?_⟩
          · intro a ha
            simp only [innerLoop, hres, List.mem_cons, List.not_mem_nil, or_false] at ha
            rw [ha]
          · simp only [innerLoop, hres]
            intro h
            cases h
          · simp only [innerLoop, hres, List.filter_cons]
            simp
      | fatal =>
          refine ⟨?_, ?_, ?_⟩
          · intro a ha
            simp only [innerLoop, hres, List.mem_cons, List.not_mem_nil, or_false] at ha
            rw [ha]
          · simp only [innerLoop, hres]
            intro h
            cases h
          · simp only [innerLoop, hres, List.filter_cons]
            simp

/-- Claim C5 witness: instantiated on the empty plan with one busy attempt
followed by one successful attempt. -/
theorem claim5_busy_retry_witness :
    (⟨emptyPlan, Resp.busy⟩ : AttemptRec).plan = emptyPlan :=
  (claim5_busy_retry_same_plan emptyPlan [[Resp.busy], [Resp.ok]] 0).1
    ⟨emptyPlan, Resp.busy⟩ (by decide)

/-- Claim C6: plan generation is a pure function of the generator's draw
sequence (two runs from the same state yield the same plan and the same
whole per-worker plan sequence), each worker's generator is seeded from
its own index, and distinct indices below `2^64` yield distinct seeds. -/
theorem claim6_deterministic_generation :
    (∀ (nScans nUpdates : Nat) (r r' : Rng), (∀ i, drawsOf r i = drawsOf r' i) →
      (genPlan nScans nUpdates r).1 = (genPlan nScans nUpdates r').1) ∧
    (∀ (s s' : Nat → Nat → Nat) (nScans nUpdates k tid : Nat),
      (∀ i, s (workerSeed tid) i = s' (workerSeed tid) i) →
      workerPlans nScans nUpdates k (workerRng s tid) =
        workerPlans nScans nUpdates k (workerRng s' tid)) ∧
    (∀ i j, i < 2 ^ 64 → j < 2 ^ 64 → workerSeed i = workerSeed j → i = j) := by
  refine ⟨fun ns nu r r' h => (genPlan_congr ns nu h).1, ?_, ?_⟩
  · intro s s' ns nu k tid h
    apply workerPlans_congr
    intro i
    show s (workerSeed tid) (0 + i) = s' (workerSeed tid) (0 + i)
    exact h (0 + i)
  · intro i j hi hj hij
    rw [workerSeed, workerSeed, Nat.mod_eq_of_lt hi, Nat.mod_eq_of_lt hj] at hij
    exact hij

/-- Claim C6 witness: two syntactically different generators with the same
draw sequence produce the same plan. -/
theorem claim6_determinism_witness :
    (genPlan 1 0 ⟨fun i => 0 + i, 0⟩).1 = (genPlan 1 0 ⟨fun i => i, 0⟩).1 :=
  claim6_deterministic_generation.1 1 0 _ _ (fun i => by simp [drawsOf])

/-- Claim C7: every scan probe string has exactly 16 characters from the
uppercase-hexadecimal alphabet, every update hex string has exactly 64
characters from the same alphabet, and every update payload has exactly
200 bytes. -/
theorem claim7_plan_shapes (nScans nUpdates : Nat) (r : Rng) :
    (∀ s, s ∈ (genPlan nScans nUpdates r).1.scans →
      s.length = 16 ∧ ∀ c, c ∈ s → c ∈ hexAlphabet) ∧
    (∀ u, u ∈ (genPlan nScans nUpdates r).1.updates →
      u.hexStr.length = 64 ∧ (∀ c, c ∈ u.hexStr → c ∈ hexAlphabet) ∧
        u.bytes.length = 200) := by
  constructor
  · intro s hs
    have h : s ∈ (genScans nScans r).1 := by simpa [genPlan] using hs
    exact genScans_mem nScans r s h
  · intro u hu
    have h : u ∈ (genUpdates nUpdates (genScans nScans r).2).1 := by
      simpa [genPlan] using hu
    obtain ⟨hb, hh, hc, _⟩ := genUpdates_mem nUpdates _ u h
    exact ⟨hh, hc, hb⟩

set_option maxRecDepth 10000 in
/-- Claim C7 witness: the scan string generated from the identity draw
stream is the alphabet itself, of length 16. -/
theorem claim7_plan_shapes_witness :
    hexAlphabet.length = 16 ∧ ∀ c, c ∈ hexAlphabet → c ∈ hexAlphabet :=
  (claim7_plan_shapes 1 1 ⟨fun i => i, 0⟩).1 hexAlphabet (by decide)

/-- Claim C8: an attempt whose pre-commit calls succeed passes through
begin, the scan phase exactly when the plan has scan keys, the update
phase exactly when it has update tuples, then commit; from commit, success
on `ok`, back to begin on `busy`, and the fatal state on any other
failure; `mSuccess` and `mFatalError` are absorbing, and every other state
can be left. -/
theorem claim8_executor_state_machine (p : Plan) :
    (∀ r, runStates p MState.mBegin
        (List.replicate ((attemptPhaseList p).length - 1) Resp.ok ++ [r]) =
      attemptPhaseList p ++ [commitNext r]) ∧
    (mstep p MState.mCommit Resp.ok = MState.mSuccess ∧
      mstep p MState.mCommit Resp.busy = MState.mBegin ∧
      mstep p MState.mCommit Resp.fatal = MState.mFatalError) ∧
    (∀ r, mstep p MState.mSuccess r = MState.mSuccess ∧
      mstep p MState.mFatalError r = MState.mFatalError) ∧
    (∀ s, s ≠ MState.mSuccess → s ≠ MState.mFatalError → ∃ r, mstep p s r ≠ s) := by
  refine ⟨?_, ⟨rfl, rfl, rfl⟩, ?_, ?_⟩
  · intro r
    by_cases hs : p.scans.isEmpty <;> by_cases hu : p.updates.isEmpty <;>
      · simp only [attemptPhaseList, hs, hu, if_true, if_false]
        cases r <;>
          simp [runStates, mstep, postBegin, postScan, hs, hu, commitNext, List.replicate]
  · intro r
    cases r <;> exact ⟨rfl, rfl⟩
  · intro s h1 h2
    cases s with
    | mBegin => exact ⟨Resp.fatal, by simp [mstep]⟩
    | mScanPhase => exact ⟨Resp.fatal, by simp [mstep]⟩
    | mUpdatePhase => exact ⟨Resp.fatal, by simp [mstep]⟩
    | mCommit => exact ⟨Resp.fatal, by simp [mstep]⟩
    | mSuccess => exact absurd rfl h1
    | mFatalError => exact absurd rfl h2

/-- Claim C8 witness: instantiated on the empty plan, the non-terminal
begin state can be left. -/
theorem claim8_state_machine_witness :
    ∃ r, mstep emptyPlan MState.mBegin r ≠ MState.mBegin :=
  (claim8_executor_state_machine emptyPlan).2.2.2 MState.mBegin (by decide) (by decide)

/-- Claim C9: when the output path already exists, `main` returns its error
immediately: the store is not seeded, no experiment runs, and no output
file is written. -/
theorem claim9_existing_output_aborts (R : Type) (driver : Config → R)
    (threads scans updates : List Nat) :
    (mainModel true threads scans updates driver).seeded = false ∧
    (mainModel true threads scans updates driver).experimentsRun = [] ∧
    (mainModel true threads scans updates driver).outputWritten = false ∧
    (mainModel true threads scans updates driver).results = none := by
  simp [mainModel]

/-- Claim C10: with zero committed transactions the throughput computation
panics (`30.0f32 / 0.0` is infinite and `Duration::from_secs_f32` rejects
it), so no result record is produced; with a positive count it succeeds
(one committed transaction reports throughput 0). -/
theorem claim10_zero_transactions_panics : tps 0 = none ∧ tps 1 = some 0 := by
  decide
